import Mathlib

/-!
Verification of the PR review aggregation engine
(`pr_review_aggregate.py`, codex skill variant and `@opencode` agent
variant).  The Python functions are shallowly embedded as executable Lean
definitions operating on `String` and `List`; Python `str` methods
(`strip`, `lower`, `upper`, `startswith`, `in`, `replace`, `splitlines`)
are modelled by the `py*` helpers below, and Python `dict`s by
association lists with replace-or-append update and last-match lookup.
-/

/-! ## Python string-method models -/

/-- Model of Python's whitespace class used by `str.strip()`. -/
def pyIsSpaceChar (c : Char) : Bool := c.isWhitespace

/-- Model of Python `str.strip()` (no arguments): drop whitespace at both ends. -/
def pyStrip (s : String) : String :=
  ⟨((s.data.dropWhile pyIsSpaceChar).reverse.dropWhile pyIsSpaceChar).reverse⟩

/-- Model of Python `str.lower()` (ASCII case folding). -/
def pyLower (s : String) : String := ⟨s.data.map Char.toLower⟩

/-- Model of Python `str.upper()` (ASCII case folding). -/
def pyUpper (s : String) : String := ⟨s.data.map Char.toUpper⟩

/-- Model of Python `s.startswith(p)`. -/
def pyStartsWith (s p : String) : Bool := p.data.isPrefixOf s.data

/-- Substring occurrence on character lists: does `pat` occur contiguously in `hay`? -/
def listHasSub (hay pat : List Char) : Bool :=
  match hay with
  | [] => pat.isEmpty
  | _ :: t => pat.isPrefixOf hay || listHasSub t pat

/-- Model of Python `pat in hay` for strings. -/
def strHasSub (hay pat : String) : Bool := listHasSub hay.data pat.data

/-- Model of `list(dict.fromkeys(xs))`: de-duplicate keeping first occurrences
(later duplicates of the head are filtered out of the de-duplicated tail). -/
def eraseDupsKeepFirst : List String → List String
  | [] => []
  | x :: xs => x :: (eraseDupsKeepFirst xs).filter (fun y => y ≠ x)

/-- One step of Python `str.replace`: scan left to right, replacing non-overlapping
occurrences of `pat` by `rep`.  The fuel argument (instantiated with the haystack
length, which each step strictly decreases) makes the recursion structural; the
`0, hay` arm is unreachable for that instantiation.  All call sites in the source
use a non-empty `pat` (the scrubbed prefixes end in `/`), which this model assumes. -/
def pyReplaceFuel (pat rep : List Char) : Nat → List Char → List Char
  | _, [] => []
  | 0, hay => hay
  | Nat.succ fuel, c :: rest =>
    if pat.isPrefixOf (c :: rest) then
      rep ++ pyReplaceFuel pat rep fuel (List.drop (pat.length - 1) rest)
    else
      c :: pyReplaceFuel pat rep fuel rest

/-- Model of Python `s.replace(pat, rep)` for non-empty `pat`. -/
def pyReplace (s pat rep : String) : String :=
  ⟨pyReplaceFuel pat.data rep.data s.data.length s.data⟩

/-- Split a character list at every occurrence of `c` (the separator is dropped). -/
def splitOnChar (c : Char) : List Char → List (List Char)
  | [] => [[]]
  | x :: xs =>
    match splitOnChar c xs with
    | r₀ :: rs => if x = c then [] :: r₀ :: rs else (x :: r₀) :: rs
    | [] => if x = c then [[], []] else [[x]]

/-- Model of Python `str.splitlines()` restricted to `\n` / `\r\n` terminators:
split on `\n`, strip one trailing `\r` per line, and drop the final empty piece
produced by a trailing newline.  The empty string yields no lines. -/
def pySplitlines (s : String) : List String :=
  if s.data = [] then []
  else
    let parts := (splitOnChar '\n' s.data).map
      (fun l => if l.getLast? = some '\r' then l.dropLast else l)
    let parts := if s.data.getLast? = some '\n' then parts.dropLast else parts
    parts.map (fun l => ⟨l⟩)

/-! ## Python dict model (string-valued) -/

/-- A Python `dict` with string keys and values, as an insertion-ordered
association list: assignment replaces the value of an existing key in place,
otherwise appends. -/
def dictSet (d : List (String × String)) (k v : String) : List (String × String) :=
  if d.any (fun kv => kv.1 = k) then
    d.map (fun kv => if kv.1 = k then (k, v) else kv)
  else
    d ++ [(k, v)]

/-- Model of Python `d.get(k, default)`: the value of the unique binding of `k`.
Lookup takes the last binding, which for `dictSet`-built lists coincides with
the unique one. -/
def dictGetD (d : List (String × String)) (k dflt : String) : String :=
  match (d.filter (fun kv => kv.1 = k)).getLast? with
  | some kv => kv.2
  | none => dflt

/-! ## Data model -/

/-- A normalized review finding, as produced by `_parse_review_findings`:
all eight fields present as strings. -/
structure Finding where
  id : String
  priority : String
  category : String
  file : String
  line : String
  title : String
  description : String
  suggestion : String
deriving DecidableEq, Repr

/-- Source `_priority_rank`: P0–P3 map to 0–3 after strip/upper, anything else to 99. -/
def priority_rank (p : String) : Nat :=
  let q := pyUpper (pyStrip p)
  if q = "P0" then 0
  else if q = "P1" then 1
  else if q = "P2" then 2
  else if q = "P3" then 3
  else 99

/-- Severity counters for the four recognized priorities. -/
structure Counts where
  p0 : Nat
  p1 : Nat
  p2 : Nat
  p3 : Nat
deriving DecidableEq, Repr

/-- The loop body of `_counts`: tally the finding if its stripped, upper-cased
priority is one of P0–P3; any other priority increments nothing. -/
def counts_step (c : Counts) (f : Finding) : Counts :=
  let p := pyUpper (pyStrip f.priority)
  if p = "P0" then { c with p0 := c.p0 + 1 }
  else if p = "P1" then { c with p1 := c.p1 + 1 }
  else if p = "P2" then { c with p2 := c.p2 + 1 }
  else if p = "P3" then { c with p3 := c.p3 + 1 }
  else c

/-- Source `_counts`: fold the tally over the findings starting from all-zero. -/
def counts (findings : List Finding) : Counts :=
  findings.foldl counts_step ⟨0, 0, 0, 0⟩

/-- The sum of the four buckets of a `Counts` value. -/
def Counts.total (c : Counts) : Nat := c.p0 + c.p1 + c.p2 + c.p3

/-! ## Tiering (mode A of `main`) -/

/-- Codex variant, `main`: the mandatory tier (`must_fix`) is the findings of
priority rank at most 1. -/
def must_fix_codex (merged_findings : List Finding) : List Finding :=
  merged_findings.filter (fun f => priority_rank f.priority ≤ 1)

/-- Codex variant, `main`: the optional tier is the findings of priority rank
at least 2. -/
def optional_codex (merged_findings : List Finding) : List Finding :=
  merged_findings.filter (fun f => 2 ≤ priority_rank f.priority)

/-- Codex variant, `main`: `stop = len(must_fix) == 0`. -/
def stop_codex (merged_findings : List Finding) : Bool :=
  (must_fix_codex merged_findings).length = 0

/-- The `@opencode` variant's `main`: `must_fix` is the findings of priority rank at
most 2 (its fix file "includes ONLY P0/P1/P2 findings"); there is no optional
tier. -/
def must_fix_opencode (merged_findings : List Finding) : List Finding :=
  merged_findings.filter (fun f => priority_rank f.priority ≤ 2)

/-- The `@opencode` variant's `main`: `stop = len(must_fix) == 0`. -/
def stop_opencode (merged_findings : List Finding) : Bool :=
  (must_fix_opencode merged_findings).length = 0

/-! ## Comment sanitizer -/

/-- Source `_sanitize_for_comment`, parametrized by the process-wide absolute cache
directory and repository root: rewrite `cacheAbs + "/"` to `"[cache]/"`, then
remove `repoAbs + "/"` (skipped when the repo root string is empty). -/
def sanitize_for_comment (cacheAbs repoAbs text : String) : String :=
  let t := pyReplace text (cacheAbs ++ "/") "[cache]/"
  if repoAbs ≠ "" then pyReplace t (repoAbs ++ "/") "" else t

/-! ## Idempotency check (`_check_existing_comment`) -/

/-- The hidden marker every rendered comment opens with. -/
def MARKER : String := "<!-- pr-review-loop-marker -->"

/-- Source `_check_existing_comment`, with the comment-listing subprocess modelled by
its outcome: `none` stands for any failure of the listing (non-zero exit,
malformed JSON output, or an exception), `some bodies` for a successful listing
of the existing comment bodies. -/
def check_existing_comment (listing : Option (List String)) (run_id : String)
    (round_num : Nat) (comment_type : String) : Bool :=
  match listing with
  | none => false
  | some comments =>
    let type_header : Option String :=
      if comment_type = "review-summary" then
        some ("## Review Summary (Round " ++ toString round_num ++ ")")
      else if comment_type = "fix-report" then
        some ("## Fix Report (Round " ++ toString round_num ++ ")")
      else if comment_type = "final-report" then
        some "## Final Report"
      else none
    match type_header with
    | none => false
    | some hdr =>
      let run_id_pattern := "RunId: " ++ run_id
      comments.any (fun body =>
        strHasSub body MARKER && strHasSub body hdr && strHasSub body run_id_pattern)

/-! ## Group resolvers -/

/-- Parsed JSON values, as produced by `json.loads`. -/
inductive JVal where
  | null
  | bool (b : Bool)
  | num (n : Int)
  | str (s : String)
  | arr (items : List JVal)
  | obj (fields : List (String × JVal))

/-- Model of `data.get(k)` on a parsed JSON object (`json.loads` keeps the last
binding of a duplicated key). -/
def jsonObjGet (fields : List (String × JVal)) (k : String) : Option JVal :=
  ((fields.filter (fun kv => kv.1 = k)).getLast?).map (fun kv => kv.2)

/-- The validation loop shared by the group resolvers: keep only array elements,
collect their non-blank string members stripped, de-duplicate preserving
first-seen order, and keep only groups of at least two distinct ids. -/
def clean_groups (gs : List JVal) : List (List String) :=
  gs.filterMap (fun g =>
    match g with
    | JVal.arr items =>
      let ids := items.filterMap (fun it =>
        match it with
        | JVal.str s => if pyStrip s ≠ "" then some (pyStrip s) else none
        | _ => none)
      let ids := eraseDupsKeepFirst ids
      if 2 ≤ ids.length then some ids else none
    | _ => none)

/-- Sources `_parse_duplicate_groups_json` / `_parse_escalation_groups_json` after
`json.loads`, parametrized by the wrapping object's array property name:
`none` stands for a parse failure (malformed JSON, including the empty-input
guard), `some data` for the parsed value.  A top-level value that is neither an
object carrying the named array nor a bare array yields the empty list. -/
def parse_groups_data (key : String) (parsed : Option JVal) : List (List String) :=
  match parsed with
  | none => []
  | some data =>
    match data with
    | JVal.obj fields =>
      match jsonObjGet fields key with
      | some (JVal.arr gs) => clean_groups gs
      | _ => []
    | JVal.arr gs => clean_groups gs
    | _ => []

/-- Source `_parse_duplicate_groups_json` (modulo the modelled `json.loads` stage). -/
def parse_duplicate_groups_json (parsed : Option JVal) : List (List String) :=
  parse_groups_data "duplicateGroups" parsed

/-- Source `_parse_escalation_groups_json` (modulo the modelled `json.loads` stage). -/
def parse_escalation_groups_json (parsed : Option JVal) : List (List String) :=
  parse_groups_data "escalationGroups" parsed

/-- Source `_parse_duplicate_groups_b64`: the outer `none` stands for a failure of
`s.encode("ascii")` or `base64.b64decode(..., validate=True)` (non-ASCII input
or invalid base64), the inner option for the `json.loads` outcome on the
decoded text. -/
def parse_duplicate_groups_b64 (outcome : Option (Option JVal)) : List (List String) :=
  match outcome with
  | none => []
  | some parsed => parse_duplicate_groups_json parsed

/-- Source `_parse_escalation_groups_b64`, modelled like `parse_duplicate_groups_b64`. -/
def parse_escalation_groups_b64 (outcome : Option (Option JVal)) : List (List String) :=
  match outcome with
  | none => []
  | some parsed => parse_escalation_groups_json parsed

/-- A top-level parsed value of the wrong shape: neither a bare array, nor an
object whose `key` property is an array (claim C6's wording). -/
def bad_top_shape (key : String) (data : JVal) : Prop :=
  (∀ gs, data ≠ JVal.arr gs) ∧
  (∀ fields, data = JVal.obj fields → ∀ gs, jsonObjGet fields key ≠ some (JVal.arr gs))

/-! ## Decision log parser -/

/-- The field-line pattern `^\s{2}([a-zA-Z][a-zA-Z0-9]*):\s*(.*)$`, with the
captured value already stripped (both consumers strip `group(2)`).  The parser
only applies it to lines passing `line.startswith("  ")`, so the leading
`\s{2}` is two whitespace characters. -/
def matchFieldLine (line : String) : Option (String × String) :=
  match line.data with
  | c0 :: c1 :: rest =>
    if pyIsSpaceChar c0 && pyIsSpaceChar c1 then
      match rest with
      | k0 :: krest =>
        if k0.isAlpha then
          let key : List Char := k0 :: krest.takeWhile (fun c => c.isAlphanum)
          match krest.dropWhile (fun c => c.isAlphanum) with
          | ':' :: vrest => some (⟨key⟩, pyStrip ⟨vrest⟩)
          | _ => none
        else none
      | [] => none
    else none
  | _ => none

/-- Everything after the first `:` of a line (Python `line.split(":", 1)[1]`);
only used on lines known to contain a colon. -/
def afterFirstColon (s : String) : String :=
  ⟨(s.data.dropWhile (fun c => c ≠ ':')).drop 1⟩

/-- The decision-log parser's running state: the active status section, the
in-progress record, and the records flushed so far. -/
structure DLState where
  status : Option String
  entry : Option (List (String × String))
  acc : List (List (String × String))

/-- Flush the in-progress record, if any. -/
def DLState.flush (st : DLState) : List (List (String × String)) :=
  st.acc ++ st.entry.toList

/-- One line of `_parse_decision_log`'s loop. -/
def decision_log_step (st : DLState) (line : String) : DLState :=
  if pyLower (pyStrip line) = "### fixed" then
    { status := some "fixed", entry := none, acc := st.flush }
  else if pyLower (pyStrip line) = "### rejected" then
    { status := some "rejected", entry := none, acc := st.flush }
  else if pyStartsWith line "## Round " then
    { status := st.status, entry := none, acc := st.flush }
  else if pyStartsWith line "- id:" && st.status.isSome then
    let fid := pyStrip (afterFirstColon line)
    { status := st.status,
      entry := some (dictSet (dictSet [] "id" fid) "status" (st.status.getD "")),
      acc := st.flush }
  else
    match st.entry with
    | some e =>
      if pyStartsWith line "  " then
        match matchFieldLine line with
        | some kv => { st with entry := some (dictSet e kv.1 kv.2) }
        | none => st
      else st
    | none => st

/-- Source `_parse_decision_log`: fold the state machine over the lines and flush the
last in-progress record.  Decision records are Python dicts carrying at least
`id` and `status`. -/
def parse_decision_log (md_text : String) : List (List (String × String)) :=
  if md_text.data = [] then []
  else
    ((pySplitlines md_text).foldl decision_log_step ⟨none, none, []⟩).flush

/-! ## Decision-log filtering -/

/-- Membership in the escalation map built by `_filter_by_decision_log`:
`fid ∈ escalation_map[priorId]` holds iff some group of length at least 2 has
first element `priorId` and carries `fid` among its remaining elements (the
map unions the tails of all groups sharing a first element). -/
def escMember (escalation_groups : List (List String)) (priorId fid : String) : Bool :=
  escalation_groups.any (fun g =>
    match g with
    | [] => false
    | p :: rest => !rest.isEmpty && p = priorId && rest.contains fid)

/-- The ids of the prior decisions whose lower-cased status is `status`
(blank ids are skipped), i.e. the `fixed_ids` / `rejected_ids` sets. -/
def decision_ids_with_status (prior_decisions : List (List (String × String)))
    (status : String) : List String :=
  prior_decisions.filterMap (fun dec =>
    let st := pyLower (dictGetD dec "status" "")
    let fid := pyStrip (dictGetD dec "id" "")
    if fid = "" then none
    else if st = status then some fid
    else none)

/-- Source `_filter_by_decision_log`: identity when no prior decisions exist;
otherwise drop blank-id findings and findings suppressed by the rule chain
(fixed id, fixed-escalation successor, rejected id not retained by a
rejected-escalation successor match). -/
def filter_by_decision_log (findings : List Finding)
    (prior_decisions : List (List (String × String)))
    (escalation_groups : List (List String)) : List Finding :=
  if prior_decisions.isEmpty then findings
  else
    findings.filter (fun f =>
      let fid := pyStrip f.id
      if fid = "" then false
      else
        let sf₁ := (decision_ids_with_status prior_decisions "fixed").contains fid
        let sf₂ := if sf₁ then sf₁
          else (decision_ids_with_status prior_decisions "fixed").any
            (fun fx => escMember escalation_groups fx fid)
        let sf₃ := if sf₂ then sf₂
          else (decision_ids_with_status prior_decisions "rejected").contains fid &&
            !((decision_ids_with_status prior_decisions "rejected").any
              (fun r => escMember escalation_groups r fid))
        !sf₃)

/-- Claim C1's rule set as a predicate on a finding id: excluded iff the id is
a fixed id, or an escalation successor of a fixed id, or a rejected id that is
not an escalation successor of some rejected id; retained otherwise. -/
def spec_retain (fixed_ids rejected_ids : List String)
    (escalation_groups : List (List String)) (fid : String) : Bool :=
  !(fixed_ids.contains fid
    || fixed_ids.any (fun fx => escMember escalation_groups fx fid)
    || (rejected_ids.contains fid &&
        !(rejected_ids.any (fun r => escMember escalation_groups r fid))))

/-! ## Duplicate merge -/

/-- The keys of the `by_id` index, in first-insertion order (a Python dict
comprehension keeps the first position and the last value of a repeated key). -/
def by_id_keys (findings : List Finding) : List String :=
  eraseDupsKeepFirst (findings.map (fun f => f.id))

/-- The value of the `by_id` index at `fid`: the last finding carrying that id. -/
def last_lookup (findings : List Finding) (fid : String) : Option Finding :=
  (findings.filter (fun f => f.id = fid)).getLast?

/-- The priority rank of the indexed finding with id `fid` (99 when absent;
only queried for present ids). -/
def rank_of (findings : List Finding) (fid : String) : Nat :=
  match last_lookup findings fid with
  | some f => priority_rank f.priority
  | none => 99

/-- Ascending comparison of Python sort keys `(rank, id)`. -/
def lexLe (ka kb : Nat × String) : Bool :=
  ka.1 < kb.1 || (ka.1 = kb.1 && ka.2 ≤ kb.2)

/-- The canonical-selection order inside a duplicate group: ascending on the
Python sort key `(_priority_rank(f), fid)`. -/
def key_le (findings : List Finding) (a b : String) : Bool :=
  lexLe (rank_of findings a, a) (rank_of findings b, b)

/-- The final output order of `_merge_duplicates`: ascending on
`(_priority_rank(priority), id)`. -/
def out_le (f g : Finding) : Bool :=
  lexLe (priority_rank f.priority, f.id) (priority_rank g.priority, g.id)

/-- Python dict assignment for the `merged_map` (list-valued). -/
def assocSetList (d : List (String × List String)) (k : String) (v : List String) :
    List (String × List String) :=
  if d.any (fun kv => kv.1 = k) then
    d.map (fun kv => if kv.1 = k then (k, v) else kv)
  else
    d ++ [(k, v)]

/-- Lookup in the `merged_map`. -/
def assocGetList (d : List (String × List String)) (k : String) :
    Option (List String) :=
  ((d.filter (fun kv => kv.1 = k)).getLast?).map (fun kv => kv.2)

/-- A duplicate group restricted to indexed ids, de-duplicated preserving
first-seen order (`ids` in `_merge_duplicates`' group loop). -/
def group_ids (findings : List Finding) (group : List String) : List String :=
  eraseDupsKeepFirst (group.filter (fun i => (by_id_keys findings).contains i))

/-- The canonical member of a duplicate group: `sorted(ids, key=sort_key)[0]`,
the head of the stable sort by `key_le`. -/
def group_canonical (findings : List Finding) (group : List String) : String :=
  ((group_ids findings group).mergeSort (key_le findings)).headD ""

/-- The absorbed members of a duplicate group (`merged` in the source): the
indexed group members other than the canonical one. -/
def group_merged (findings : List Finding) (group : List String) : List String :=
  (group_ids findings group).filter (fun i => i ≠ group_canonical findings group)

/-- One duplicate group of `_merge_duplicates`' first loop: skip groups below
two indexed members (and the groups whose absorbed-member list is empty), pick
the canonical member, record the absorbed members in the `merged_map` and the
`seen` set. -/
def merge_step (findings : List Finding) (st : List (String × List String) × List String)
    (group : List String) : List (String × List String) × List String :=
  if (group_ids findings group).length < 2 then st
  else if (group_merged findings group).isEmpty then st
  else (assocSetList st.1 (group_canonical findings group) (group_merged findings group),
        st.2 ++ group_merged findings group)

/-- The "Also reported as" note: when `fid` is a canonical id of the
`merged_map`, append the absorbed ids to the finding's description (on a new
line when a description is present); otherwise leave the finding unchanged. -/
def apply_note (merged_map : List (String × List String)) (fid : String)
    (f : Finding) : Finding :=
  match assocGetList merged_map fid with
  | some merged =>
    let suffix := "Also reported as: " ++ String.intercalate ", " merged
    let desc := if f.description = "" then suffix
      else f.description ++ "\n" ++ suffix
    { f with description := desc }
  | none => f

/-- The output loop body of `_merge_duplicates` for one index key: absorbed
ids emit nothing, the rest emit the indexed finding with the note applied. -/
def merge_emit (findings : List Finding)
    (st : List (String × List String) × List String) (fid : String) : Option Finding :=
  if st.2.contains fid then none
  else (last_lookup findings fid).map (apply_note st.1 fid)

/-- The state of `_merge_duplicates`' group loop after all groups:
`(merged_map, seen)`. -/
def merge_fold (findings : List Finding) (duplicate_groups : List (List String)) :
    List (String × List String) × List String :=
  duplicate_groups.foldl (merge_step findings) ([], [])

/-- Source `_merge_duplicates`: fold the groups, emit the non-absorbed index entries
(appending the "Also reported as" note to canonical findings), and sort the
output by `(_priority_rank, id)`.  Returns the merged findings and the
`merged_map`. -/
def merge_duplicates (findings : List Finding) (duplicate_groups : List (List String)) :
    List Finding × List (String × List String) :=
  (((by_id_keys findings).filterMap
      (merge_emit findings (merge_fold findings duplicate_groups))).mergeSort out_le,
   (merge_fold findings duplicate_groups).1)

/-! ## Helper lemmas: de-duplication -/

theorem mem_eraseDupsKeepFirst {a : String} : ∀ {l : List String},
    a ∈ eraseDupsKeepFirst l ↔ a ∈ l := by
  intro l
  induction l with
  | nil => simp [eraseDupsKeepFirst]
  | cons x xs ih =>
    rw [eraseDupsKeepFirst]
    by_cases hax : a = x
    · subst hax; simp
    · simp [List.mem_filter, hax, ih]

theorem nodup_eraseDupsKeepFirst : ∀ {l : List String}, (eraseDupsKeepFirst l).Nodup := by
  intro l
  induction l with
  | nil => simp [eraseDupsKeepFirst]
  | cons x xs ih =>
    rw [eraseDupsKeepFirst]
    refine List.nodup_cons.mpr ⟨fun hx => ?_, ih.filter _⟩
    simp [List.mem_filter] at hx

theorem length_eraseDupsKeepFirst_le : ∀ {l : List String},
    (eraseDupsKeepFirst l).length ≤ l.length := by
  intro l
  induction l with
  | nil => simp [eraseDupsKeepFirst]
  | cons x xs ih =>
    rw [eraseDupsKeepFirst]
    simp only [List.length_cons, Nat.succ_le_succ_iff]
    exact le_trans (List.length_filter_le _ _) ih

theorem eraseDupsKeepFirst_eq_self_of_nodup : ∀ {l : List String},
    l.Nodup → eraseDupsKeepFirst l = l := by
  intro l
  induction l with
  | nil => intro _; rfl
  | cons x xs ih =>
    intro h
    rw [eraseDupsKeepFirst, ih (List.nodup_cons.mp h).2]
    have hx : x ∉ xs := (List.nodup_cons.mp h).1
    have hf : xs.filter (fun y => y ≠ x) = xs :=
      List.filter_eq_self.mpr (fun a ha => by
        simp only [decide_eq_true_eq]
        exact fun hax => hx (hax ▸ ha))
    rw [hf]

theorem length_eraseDupsKeepFirst_le_one_of_all_eq {l : List String} {a : String}
    (h : ∀ x ∈ l, x = a) : (eraseDupsKeepFirst l).length ≤ 1 := by
  cases l with
  | nil => simp [eraseDupsKeepFirst]
  | cons x xs =>
    rw [eraseDupsKeepFirst]
    have hx : x = a := h x (List.mem_cons_self x xs)
    have hf : (eraseDupsKeepFirst xs).filter (fun y => y ≠ x) = [] :=
      List.filter_eq_nil_iff.mpr (fun y hy => by
        have hy' : y = x :=
          (h y (List.mem_cons_of_mem x (mem_eraseDupsKeepFirst.mp hy))).trans hx.symm
        simp [hy'])
    simp only [hf]
    simp

theorem filter_ne_nonempty_of_nodup_two {l : List String} {c : String}
    (hnd : l.Nodup) (h2 : 2 ≤ l.length) : l.filter (fun i => i ≠ c) ≠ [] := by
  match l, h2 with
  | a :: b :: t, _ =>
    have hab : a ≠ b := by
      have := List.nodup_cons.mp hnd
      exact fun h => this.1 (h ▸ List.mem_cons_self b t)
    intro hnil
    rw [List.filter_eq_nil_iff] at hnil
    have ha := hnil a (List.mem_cons_self _ _)
    have hb := hnil b (List.mem_cons_of_mem _ (List.mem_cons_self _ _))
    simp only [decide_eq_true_eq, not_not] at ha hb
    exact hab (ha.trans hb.symm)

/-! ## Helper lemmas: the lexicographic sort key -/

theorem lexLe_refl (k : Nat × String) : lexLe k k = true := by
  simp [lexLe]

theorem lexLe_trans {k₁ k₂ k₃ : Nat × String} (h₁ : lexLe k₁ k₂ = true)
    (h₂ : lexLe k₂ k₃ = true) : lexLe k₁ k₃ = true := by
  simp only [lexLe, Bool.or_eq_true, Bool.and_eq_true, decide_eq_true_eq] at h₁ h₂ ⊢
  rcases h₁ with h₁ | ⟨h₁e, h₁s⟩ <;> rcases h₂ with h₂ | ⟨h₂e, h₂s⟩
  · exact Or.inl (lt_trans h₁ h₂)
  · exact Or.inl (h₂e ▸ h₁)
  · exact Or.inl (h₁e ▸ h₂)
  · exact Or.inr ⟨h₁e.trans h₂e, le_trans h₁s h₂s⟩

theorem lexLe_total (k₁ k₂ : Nat × String) : (lexLe k₁ k₂ || lexLe k₂ k₁) = true := by
  simp only [lexLe, Bool.or_eq_true, Bool.and_eq_true, decide_eq_true_eq]
  rcases Nat.lt_trichotomy k₁.1 k₂.1 with h | h | h
  · exact Or.inl (Or.inl h)
  · rcases le_total k₁.2 k₂.2 with hs | hs
    · exact Or.inl (Or.inr ⟨h, hs⟩)
    · exact Or.inr (Or.inr ⟨h.symm, hs⟩)
  · exact Or.inr (Or.inl h)

theorem lexLe_antisymm {k₁ k₂ : Nat × String} (h₁ : lexLe k₁ k₂ = true)
    (h₂ : lexLe k₂ k₁ = true) : k₁ = k₂ := by
  simp only [lexLe, Bool.or_eq_true, Bool.and_eq_true, decide_eq_true_eq] at h₁ h₂
  rcases h₁ with h₁ | ⟨h₁e, h₁s⟩ <;> rcases h₂ with h₂ | ⟨h₂e, h₂s⟩
  · exact absurd (lt_trans h₁ h₂) (lt_irrefl _)
  · exact absurd (h₂e ▸ h₁) (lt_irrefl _)
  · exact absurd (h₁e ▸ h₂) (lt_irrefl _)
  · exact Prod.ext h₁e (le_antisymm h₁s h₂s)

theorem key_le_trans (findings : List Finding) (a b c : String)
    (h₁ : key_le findings a b = true) (h₂ : key_le findings b c = true) :
    key_le findings a c = true := lexLe_trans h₁ h₂

theorem key_le_total (findings : List Finding) (a b : String) :
    (key_le findings a b || key_le findings b a) = true := lexLe_total _ _

theorem out_le_trans (f g h : Finding) (h₁ : out_le f g = true)
    (h₂ : out_le g h = true) : out_le f h = true := lexLe_trans h₁ h₂

theorem out_le_total (f g : Finding) : (out_le f g || out_le g f) = true :=
  lexLe_total _ _

/-! ## Helper lemmas: head of a merge sort is minimal -/

theorem mergeSort_ne_nil {α : Type} {le : α → α → Bool} {l : List α}
    (h : l ≠ []) : l.mergeSort le ≠ [] := by
  intro hnil
  have : (l.mergeSort le).length = l.length := List.length_mergeSort l
  rw [hnil] at this
  exact h (List.length_eq_zero.mp this.symm)

theorem headD_mergeSort_mem {α : Type} {le : α → α → Bool} {l : List α} {d : α}
    (h : l ≠ []) : (l.mergeSort le).headD d ∈ l := by
  cases heq : l.mergeSort le with
  | nil => exact absurd heq (mergeSort_ne_nil h)
  | cons c rest =>
    have : c ∈ l.mergeSort le := heq ▸ List.mem_cons_self c rest
    rw [List.mem_mergeSort] at this
    simpa [heq] using this

theorem headD_mergeSort_min {α : Type} {le : α → α → Bool} {l : List α} (d : α)
    (trans : ∀ (a b c : α), le a b = true → le b c = true → le a c = true)
    (total : ∀ (a b : α), (le a b || le b a) = true)
    (hrefl : ∀ a, le a a = true)
    (h : l ≠ []) : ∀ m ∈ l, le ((l.mergeSort le).headD d) m = true := by
  intro m hm
  cases heq : l.mergeSort le with
  | nil => exact absurd heq (mergeSort_ne_nil h)
  | cons c rest =>
    have hsorted := List.sorted_mergeSort trans total l
    rw [heq] at hsorted
    have hm' : m ∈ c :: rest := by
      rw [← heq, List.mem_mergeSort]; exact hm
    rcases List.mem_cons.mp hm' with rfl | hmr
    · simp [heq, hrefl]
    · simpa [heq] using List.rel_of_pairwise_cons hsorted hmr

/-! ## Helper lemmas: the `by_id` index -/

theorem last_lookup_id {findings : List Finding} {fid : String} {f : Finding}
    (h : last_lookup findings fid = some f) : f.id = fid := by
  have hmem : f ∈ findings.filter (fun g => g.id = fid) :=
    List.mem_of_mem_getLast? h
  have := (List.mem_filter.mp hmem).2
  simpa using this

theorem last_lookup_mem {findings : List Finding} {fid : String} {f : Finding}
    (h : last_lookup findings fid = some f) : f ∈ findings := by
  have hmem : f ∈ findings.filter (fun g => g.id = fid) :=
    List.mem_of_mem_getLast? h
  exact (List.mem_filter.mp hmem).1

theorem mem_by_id_keys {findings : List Finding} {fid : String} :
    fid ∈ by_id_keys findings ↔ ∃ f ∈ findings, f.id = fid := by
  rw [by_id_keys, mem_eraseDupsKeepFirst]
  simp

theorem by_id_keys_nodup (findings : List Finding) : (by_id_keys findings).Nodup :=
  nodup_eraseDupsKeepFirst

theorem last_lookup_isSome_of_mem_keys {findings : List Finding} {fid : String}
    (h : fid ∈ by_id_keys findings) : ∃ f, last_lookup findings fid = some f := by
  obtain ⟨f, hf, hid⟩ := mem_by_id_keys.mp h
  have hne : findings.filter (fun g => g.id = fid) ≠ [] := by
    intro hnil
    rw [List.filter_eq_nil_iff] at hnil
    exact hnil f hf (by simpa using hid)
  cases hlast : (findings.filter (fun g => g.id = fid)).getLast? with
  | none => exact absurd (List.getLast?_eq_none_iff.mp hlast) hne
  | some g => exact ⟨g, hlast⟩

theorem apply_note_id (merged_map : List (String × List String)) (fid : String)
    (f : Finding) : (apply_note merged_map fid f).id = f.id := by
  rw [apply_note]
  cases assocGetList merged_map fid <;> rfl

theorem assocGetList_eq_none_of_not_mem {d : List (String × List String)} {k : String}
    (h : ∀ kv ∈ d, kv.1 ≠ k) : assocGetList d k = none := by
  have hf : d.filter (fun kv => kv.1 = k) = [] :=
    List.filter_eq_nil_iff.mpr (fun kv hkv => by simpa using h kv hkv)
  simp [assocGetList, hf]

/-! ## Helper lemmas: the group fold -/

theorem merge_step_seen_mono {findings : List Finding}
    {st : List (String × List String) × List String} {g : List String} {x : String}
    (h : x ∈ st.2) : x ∈ (merge_step findings st g).2 := by
  rw [merge_step]
  split
  · exact h
  · split
    · exact h
    · exact List.mem_append_left _ h

theorem foldl_merge_step_seen_mono {findings : List Finding}
    (gs : List (List String)) (st : List (String × List String) × List String)
    {x : String} (h : x ∈ st.2) :
    x ∈ (gs.foldl (merge_step findings) st).2 := by
  induction gs generalizing st with
  | nil => exact h
  | cons g gs ih =>
    exact ih (merge_step findings st g) (merge_step_seen_mono h)

theorem mem_group_of_mem_group_ids {findings : List Finding} {g : List String}
    {x : String} (h : x ∈ group_ids findings g) : x ∈ g :=
  (List.mem_filter.mp (mem_eraseDupsKeepFirst.mp h)).1

theorem group_ids_ne_nil_of_two {findings : List Finding} {g : List String}
    (h : ¬(group_ids findings g).length < 2) : group_ids findings g ≠ [] := by
  intro hnil
  rw [hnil] at h
  simp at h

theorem group_canonical_mem {findings : List Finding} {g : List String}
    (h : ¬(group_ids findings g).length < 2) :
    group_canonical findings g ∈ group_ids findings g :=
  headD_mergeSort_mem (group_ids_ne_nil_of_two h)

theorem merge_step_seen_sub {findings : List Finding}
    {st : List (String × List String) × List String} {g : List String} {x : String}
    (h : x ∈ (merge_step findings st g).2) : x ∈ st.2 ∨ x ∈ g := by
  rw [merge_step] at h
  split at h
  · exact Or.inl h
  · split at h
    · exact Or.inl h
    · rcases List.mem_append.mp h with h | h
      · exact Or.inl h
      · exact Or.inr (mem_group_of_mem_group_ids (List.mem_filter.mp h).1)

theorem foldl_merge_step_seen_sub {findings : List Finding} :
    ∀ (gs : List (List String)) (st : List (String × List String) × List String)
      {x : String}, x ∈ (gs.foldl (merge_step findings) st).2 →
      x ∈ st.2 ∨ ∃ g ∈ gs, x ∈ g := by
  intro gs
  induction gs with
  | nil => intro st x h; exact Or.inl h
  | cons g gs ih =>
    intro st x h
    rcases ih (merge_step findings st g) h with h' | ⟨g', hg', hx⟩
    · rcases merge_step_seen_sub h' with h'' | h''
      · exact Or.inl h''
      · exact Or.inr ⟨g, List.mem_cons_self _ _, h''⟩
    · exact Or.inr ⟨g', List.mem_cons_of_mem _ hg', hx⟩

theorem merge_step_map_keys_sub {findings : List Finding}
    {st : List (String × List String) × List String} {g : List String}
    {kv : String × List String} (h : kv ∈ (merge_step findings st g).1) :
    kv.1 ∈ (st.1.map Prod.fst) ∨ kv.1 ∈ g := by
  rw [merge_step] at h
  split at h
  · exact Or.inl (List.mem_map_of_mem _ h)
  · rename_i hlen
    have hcg : group_canonical findings g ∈ g :=
      mem_group_of_mem_group_ids (group_canonical_mem hlen)
    split at h
    · exact Or.inl (List.mem_map_of_mem _ h)
    · rw [assocSetList] at h
      split at h
      · rcases List.mem_map.mp h with ⟨kv', hkv', heq⟩
        by_cases hk : kv'.1 = group_canonical findings g
        · rw [if_pos hk] at heq
          exact Or.inr (by rw [← heq]; exact hcg)
        · rw [if_neg hk] at heq
          exact Or.inl (by rw [← heq]; exact List.mem_map_of_mem _ hkv')
      · rcases List.mem_append.mp h with h' | h'
        · exact Or.inl (List.mem_map_of_mem _ h')
        · have heq : kv = (group_canonical findings g, group_merged findings g) := by
            simpa using h'
          exact Or.inr (by rw [heq]; exact hcg)

theorem foldl_merge_step_map_keys_sub {findings : List Finding} :
    ∀ (gs : List (List String)) (st : List (String × List String) × List String)
      {kv : String × List String}, kv ∈ (gs.foldl (merge_step findings) st).1 →
      kv.1 ∈ (st.1.map Prod.fst) ∨ ∃ g ∈ gs, kv.1 ∈ g := by
  intro gs
  induction gs with
  | nil => intro st kv h; exact Or.inl (List.mem_map_of_mem _ h)
  | cons g gs ih =>
    intro st kv h
    rcases ih (merge_step findings st g) h with h' | ⟨g', hg', hx⟩
    · rcases List.mem_map.mp h' with ⟨kv', hkv', heq⟩
      rcases merge_step_map_keys_sub hkv' with h'' | h''
      · exact Or.inl (heq ▸ h'')
      · exact Or.inr ⟨g, List.mem_cons_self _ _, heq ▸ h''⟩
    · exact Or.inr ⟨g', List.mem_cons_of_mem _ hg', hx⟩

/-! ## Helper lemmas: the merge output -/

theorem merge_emit_eq_some {findings : List Finding}
    {st : List (String × List String) × List String} {fid : String} {f' : Finding} :
    merge_emit findings st fid = some f' ↔
      st.2.contains fid = false ∧
      ∃ f, last_lookup findings fid = some f ∧ f' = apply_note st.1 fid f := by
  rw [merge_emit]
  split
  · rename_i hc
    constructor
    · intro h; exact nomatch h
    · rintro ⟨hfalse, -⟩
      rw [hc] at hfalse
      exact Bool.noConfusion hfalse
  · rename_i hc
    rw [Bool.not_eq_true] at hc
    constructor
    · intro h
      cases hll : last_lookup findings fid with
      | none => rw [hll] at h; exact nomatch h
      | some f =>
        rw [hll] at h
        exact ⟨hc, f, rfl, (Option.some.inj h).symm⟩
    · rintro ⟨-, f, hll, rfl⟩
      rw [hll]
      rfl

theorem merge_emit_id {findings : List Finding}
    {st : List (String × List String) × List String} {fid : String} {f' : Finding}
    (h : merge_emit findings st fid = some f') : f'.id = fid := by
  obtain ⟨-, f, hll, rfl⟩ := merge_emit_eq_some.mp h
  rw [apply_note_id]
  exact last_lookup_id hll

theorem nodup_filterMap_ids {keys : List String} {body : String → Option Finding}
    (hk : keys.Nodup) (hid : ∀ fid f', body fid = some f' → f'.id = fid) :
    ((keys.filterMap body).map (fun f => f.id)).Nodup := by
  induction keys with
  | nil => simp
  | cons k ks ih =>
    rw [List.filterMap_cons]
    rcases List.nodup_cons.mp hk with ⟨hkmem, hks⟩
    cases hb : body k with
    | none => exact ih hks
    | some f' =>
      simp only [List.map_cons]
      refine List.nodup_cons.mpr ⟨?_, ih hks⟩
      rw [hid k f' hb]
      intro hmem
      rcases List.mem_map.mp hmem with ⟨g, hg, hgid⟩
      rcases List.mem_filterMap.mp hg with ⟨fid', hfid', hbody⟩
      have : fid' = k := (hid fid' g hbody).symm.trans hgid
      exact hkmem (this ▸ hfid')

theorem mem_merge_out {findings : List Finding} {gs : List (List String)} {f' : Finding} :
    f' ∈ (merge_duplicates findings gs).1 ↔
      ∃ fid, fid ∈ by_id_keys findings ∧
        merge_emit findings (merge_fold findings gs) fid = some f' := by
  rw [merge_duplicates]
  simp only [List.mem_mergeSort, List.mem_filterMap]

theorem merge_out_ids_nodup (findings : List Finding) (gs : List (List String)) :
    ((merge_duplicates findings gs).1.map (fun f => f.id)).Nodup := by
  rw [merge_duplicates]
  have hperm := (List.mergeSort_perm
    ((by_id_keys findings).filterMap
      (merge_emit findings (merge_fold findings gs))) out_le).map (fun f => f.id)
  exact hperm.nodup_iff.mpr
    (nodup_filterMap_ids (by_id_keys_nodup findings) (fun _ _ h => merge_emit_id h))

theorem merge_out_length_le (findings : List Finding) (gs : List (List String)) :
    (merge_duplicates findings gs).1.length ≤ findings.length := by
  rw [merge_duplicates]
  rw [List.length_mergeSort]
  calc ((by_id_keys findings).filterMap
        (merge_emit findings (merge_fold findings gs))).length
      ≤ (by_id_keys findings).length := List.length_filterMap_le _ _
    _ ≤ (findings.map (fun f => f.id)).length := length_eraseDupsKeepFirst_le
    _ = findings.length := List.length_map _ _

theorem contains_eq_true_iff {l : List String} {a : String} :
    l.contains a = true ↔ a ∈ l := by simp

theorem apply_note_of_none {merged_map : List (String × List String)} {fid : String}
    (f : Finding) (h : assocGetList merged_map fid = none) :
    apply_note merged_map fid f = f := by
  rw [apply_note, h]

/-- A finding with the given id and priority and the parser's default values
for the remaining fields; used as concrete input for witnesses. -/
def exFinding (i p : String) : Finding :=
  ⟨i, p, "quality", "<unknown>", "null", "", "", "(no suggestion provided)"⟩

/-- Claim C10: the duplicate merge indexes findings by id, so of several input
findings sharing an id only the last occurrence's fields survive (for an id no
duplicate group mentions, the output carries exactly the last occurrence);
the output never contains two findings with the same id, and its length never
exceeds the input length. -/
theorem claim_C10_merge_by_id_index (findings : List Finding) (gs : List (List String)) :
    ((merge_duplicates findings gs).1.map (fun f => f.id)).Nodup ∧
    (merge_duplicates findings gs).1.length ≤ findings.length ∧
    (∀ fid f, last_lookup findings fid = some f → (∀ g ∈ gs, fid ∉ g) →
      f ∈ (merge_duplicates findings gs).1 ∧
      ∀ f' ∈ (merge_duplicates findings gs).1, f'.id = fid → f' = f) := by
  refine ⟨merge_out_ids_nodup findings gs, merge_out_length_le findings gs, ?_⟩
  intro fid f hll hnotin
  have hkeys : fid ∈ by_id_keys findings :=
    mem_by_id_keys.mpr ⟨f, last_lookup_mem hll, last_lookup_id hll⟩
  have hseen : (merge_fold findings gs).2.contains fid = false := by
    cases hcon : (merge_fold findings gs).2.contains fid with
    | false => rfl
    | true =>
      rcases foldl_merge_step_seen_sub gs ([], []) (contains_eq_true_iff.mp hcon) with
        habs | ⟨g, hg, hmem⟩
      · exact absurd habs (by simp)
      · exact absurd hmem (hnotin g hg)
  have hmap : assocGetList (merge_fold findings gs).1 fid = none := by
    apply assocGetList_eq_none_of_not_mem
    intro kv hkv heq
    rcases foldl_merge_step_map_keys_sub gs ([], []) hkv with habs | ⟨g, hg, hmem⟩
    · exact absurd habs (by simp)
    · exact hnotin g hg (heq ▸ hmem)
  have hemit : merge_emit findings (merge_fold findings gs) fid = some f :=
    merge_emit_eq_some.mpr ⟨hseen, f, hll, (apply_note_of_none f hmap).symm⟩
  refine ⟨mem_merge_out.mpr ⟨fid, hkeys, hemit⟩, ?_⟩
  intro f' hf' hid'
  obtain ⟨fid2, hk2, hemit2⟩ := mem_merge_out.mp hf'
  have hfid2 : fid2 = fid := (merge_emit_id hemit2).symm.trans hid'
  subst hfid2
  obtain ⟨-, f2, hll2, rfl⟩ := merge_emit_eq_some.mp hemit2
  have hf2 : f2 = f := Option.some.inj (hll2.symm.trans hll)
  rw [hf2, apply_note_of_none f hmap]

theorem mem_keys_of_mem_group_ids {findings : List Finding} {g : List String}
    {x : String} (h : x ∈ group_ids findings g) : x ∈ by_id_keys findings := by
  have := (List.mem_filter.mp (mem_eraseDupsKeepFirst.mp h)).2
  exact contains_eq_true_iff.mp (by simpa using this)

theorem group_ids_nodup (findings : List Finding) (g : List String) :
    (group_ids findings g).Nodup := nodup_eraseDupsKeepFirst

theorem single_group_fold {findings : List Finding} {g : List String}
    (h2 : 2 ≤ (group_ids findings g).length) :
    merge_fold findings [g] =
      ([(group_canonical findings g, group_merged findings g)],
       group_merged findings g) := by
  have hmerged_ne : group_merged findings g ≠ [] :=
    filter_ne_nonempty_of_nodup_two (group_ids_nodup findings g) h2
  rw [merge_fold, List.foldl_cons, List.foldl_nil, merge_step,
    if_neg (Nat.not_lt.mpr h2),
    if_neg (by simpa [List.isEmpty_iff] using hmerged_ne)]
  simp [assocSetList]

/-- Claim C2: for a duplicate group with at least two indexed members, the
merge picks as canonical the member minimal under ascending
`(priority rank, id)`; every non-canonical member is excluded from the output;
and the canonical finding appears in the output with its id unchanged and the
absorbed ids appended to its description as an "Also reported as" note. -/
theorem claim_C2_duplicate_merge (findings : List Finding) (g : List String)
    (h2 : 2 ≤ (group_ids findings g).length) :
    group_canonical findings g ∈ group_ids findings g ∧
    (∀ m ∈ group_ids findings g,
      rank_of findings (group_canonical findings g) < rank_of findings m ∨
      (rank_of findings (group_canonical findings g) = rank_of findings m ∧
        group_canonical findings g ≤ m)) ∧
    (∀ m ∈ group_ids findings g, m ≠ group_canonical findings g →
      ∀ f' ∈ (merge_duplicates findings [g]).1, f'.id ≠ m) ∧
    (∃ f, last_lookup findings (group_canonical findings g) = some f ∧
      { f with description :=
          if f.description = "" then
            "Also reported as: " ++ String.intercalate ", " (group_merged findings g)
          else f.description ++ "\n" ++
            ("Also reported as: " ++ String.intercalate ", " (group_merged findings g)) }
        ∈ (merge_duplicates findings [g]).1) := by
  have hlen : ¬(group_ids findings g).length < 2 := Nat.not_lt.mpr h2
  have hne : group_ids findings g ≠ [] := group_ids_ne_nil_of_two hlen
  have hfold := single_group_fold h2
  refine ⟨group_canonical_mem hlen, ?_, ?_, ?_⟩
  · intro m hm
    have := headD_mergeSort_min "" (key_le_trans findings)
      (key_le_total findings) (fun a => lexLe_refl _) hne m hm
    rw [← group_canonical] at this
    simpa [key_le, lexLe, Bool.or_eq_true, Bool.and_eq_true, decide_eq_true_eq]
      using this
  · intro m hm hmc f' hf' hid
    obtain ⟨fid, hfk, hemit⟩ := mem_merge_out.mp hf'
    obtain ⟨hseen, f, hllf, rfl⟩ := merge_emit_eq_some.mp hemit
    have hfid : fid = m := by
      rw [← hid, apply_note_id]
      exact (last_lookup_id hllf).symm
    have hmem : (group_merged findings g).contains m = true :=
      contains_eq_true_iff.mpr (List.mem_filter.mpr ⟨hm, by simpa using hmc⟩)
    have hseen' : (group_merged findings g).contains m = false := by
      rw [hfold, hfid] at hseen
      exact hseen
    rw [hseen'] at hmem
    exact Bool.noConfusion hmem
  · obtain ⟨f, hll⟩ :=
      last_lookup_isSome_of_mem_keys (mem_keys_of_mem_group_ids (group_canonical_mem hlen))
    refine ⟨f, hll, ?_⟩
    have hcnotmerged : (group_merged findings g).contains (group_canonical findings g)
        = false := by
      cases hcon : (group_merged findings g).contains (group_canonical findings g) with
      | false => rfl
      | true =>
        have := List.mem_filter.mp (contains_eq_true_iff.mp hcon)
        simp at this
    have hgetmap : assocGetList (merge_fold findings [g]).1 (group_canonical findings g)
        = some (group_merged findings g) := by
      rw [hfold]
      simp [assocGetList]
    have hnote : apply_note (merge_fold findings [g]).1 (group_canonical findings g) f
        = { f with description :=
            if f.description = "" then
              "Also reported as: " ++ String.intercalate ", " (group_merged findings g)
            else f.description ++ "\n" ++
              ("Also reported as: " ++ String.intercalate ", " (group_merged findings g)) } := by
      rw [apply_note, hgetmap]
    have hemit : merge_emit findings (merge_fold findings [g]) (group_canonical findings g)
        = some (apply_note (merge_fold findings [g]).1 (group_canonical findings g) f) := by
      rw [merge_emit]
      rw [show (merge_fold findings [g]).2.contains (group_canonical findings g) = false by
        rw [hfold]; exact hcnotmerged]
      simp [hll]
    exact mem_merge_out.mpr
      ⟨group_canonical findings g, mem_keys_of_mem_group_ids (group_canonical_mem hlen),
       by rw [hemit, hnote]⟩

/-- Witness for claim C2: the spec's scenario, duplicate group
`[GMN-004, CLD-007]` with `GMN-004` at P2 and `CLD-007` at P0 (both indexed),
instantiating the merge theorem. -/
theorem claim_C2_witness :
    (2 ≤ (group_ids [exFinding "GMN-004" "P2", exFinding "CLD-007" "P0"]
        ["GMN-004", "CLD-007"]).length) ∧
    group_canonical [exFinding "GMN-004" "P2", exFinding "CLD-007" "P0"]
        ["GMN-004", "CLD-007"]
      ∈ group_ids [exFinding "GMN-004" "P2", exFinding "CLD-007" "P0"]
        ["GMN-004", "CLD-007"] :=
  ⟨by decide,
   (claim_C2_duplicate_merge [exFinding "GMN-004" "P2", exFinding "CLD-007" "P0"]
     ["GMN-004", "CLD-007"] (by decide)).1⟩

/-! ## Helper lemmas: idempotence of the merge -/

theorem merge_out_id_mem {findings : List Finding} {gs : List (List String)} {x : String} :
    x ∈ (merge_duplicates findings gs).1.map (fun f => f.id) ↔
      (x ∈ by_id_keys findings ∧ (merge_fold findings gs).2.contains x = false) := by
  constructor
  · intro hx
    rcases List.mem_map.mp hx with ⟨f', hf', rfl⟩
    obtain ⟨fid, hk, hemit⟩ := mem_merge_out.mp hf'
    obtain ⟨hseen, -⟩ := merge_emit_eq_some.mp hemit
    rw [merge_emit_id hemit]
    exact ⟨hk, hseen⟩
  · rintro ⟨hk, hseen⟩
    obtain ⟨f, hll⟩ := last_lookup_isSome_of_mem_keys hk
    have hemit : merge_emit findings (merge_fold findings gs) x
        = some (apply_note (merge_fold findings gs).1 x f) := by
      rw [merge_emit, hseen]
      simp [hll]
    exact List.mem_map.mpr ⟨_, mem_merge_out.mpr ⟨x, hk, hemit⟩,
      by rw [apply_note_id]; exact last_lookup_id hll⟩

theorem group_merged_sub_fold_seen {findings : List Finding} :
    ∀ {gs : List (List String)}
      (st : List (String × List String) × List String) {g : List String},
      g ∈ gs → ¬(group_ids findings g).length < 2 →
      ∀ x ∈ group_merged findings g, x ∈ (gs.foldl (merge_step findings) st).2 := by
  intro gs
  induction gs with
  | nil => intro st g hg; exact absurd hg (List.not_mem_nil g)
  | cons g' gs' ih =>
    intro st g hg h2 x hx
    rcases List.mem_cons.mp hg with rfl | hg'
    · have hstep : x ∈ (merge_step findings st g).2 := by
        rw [merge_step, if_neg h2,
          if_neg (by
            intro hempty
            rw [List.isEmpty_iff] at hempty
            rw [hempty] at hx
            exact List.not_mem_nil x hx)]
        exact List.mem_append_right _ hx
      exact foldl_merge_step_seen_mono gs' _ hstep
    · exact ih (merge_step findings st g') hg' h2 x hx

theorem merge_fold_eq_nil {findings : List Finding} {gs : List (List String)}
    (h : ∀ g ∈ gs, (group_ids findings g).length < 2) :
    merge_fold findings gs = ([], []) := by
  rw [merge_fold]
  induction gs with
  | nil => rfl
  | cons g gs' ih =>
    rw [List.foldl_cons, merge_step, if_pos (h g (List.mem_cons_self _ _))]
    exact ih (fun g' hg' => h g' (List.mem_cons_of_mem _ hg'))

theorem eq_headD_of_length_le_one {l : List String} {d : String} (h : l.length ≤ 1) :
    ∀ x ∈ l, x = l.headD d := by
  match l, h with
  | [], _ => intro x hx; exact absurd hx (List.not_mem_nil x)
  | [a], _ => intro x hx; simpa using hx

theorem last_lookup_cons_ne {f : Finding} {t : List Finding} {x : String}
    (h : ¬f.id = x) : last_lookup (f :: t) x = last_lookup t x := by
  rw [last_lookup, last_lookup, List.filter_cons, if_neg (by simpa using h)]

theorem filterMap_last_lookup_self : ∀ {l : List Finding},
    (l.map (fun f => f.id)).Nodup →
    (l.map (fun f => f.id)).filterMap (last_lookup l) = l := by
  intro l
  induction l with
  | nil => intro _; rfl
  | cons f t ih =>
    intro h
    have h' := h
    rw [List.map_cons] at h'
    rcases List.nodup_cons.mp h' with ⟨hf, ht⟩
    have hll : last_lookup (f :: t) f.id = some f := by
      rw [last_lookup, List.filter_cons, if_pos (by simp)]
      have htf : t.filter (fun g => g.id = f.id) = [] :=
        List.filter_eq_nil_iff.mpr (fun g hg => by
          simp only [decide_eq_true_eq]
          intro hgid
          exact hf (hgid ▸ List.mem_map_of_mem _ hg))
      rw [htf]
      rfl
    rw [List.map_cons, List.filterMap_cons_some hll]
    congr 1
    rw [List.filterMap_congr (fun x hx => last_lookup_cons_ne (fun hfx => hf (hfx ▸ hx)))]
    exact ih ht

theorem merge_out_sorted (findings : List Finding) (gs : List (List String)) :
    List.Pairwise (fun a b => out_le a b = true) (merge_duplicates findings gs).1 := by
  rw [merge_duplicates]
  exact List.sorted_mergeSort out_le_trans out_le_total _

/-- Claim C7: the duplicate merge is idempotent — re-merging the merge's output
with the same duplicate groups returns it unchanged (in particular no survivor
gains a second "Also reported as" note), because every group restricted to the
surviving ids has fewer than two members and is discarded. -/
theorem claim_C7_merge_idempotent (findings : List Finding) (gs : List (List String)) :
    (merge_duplicates (merge_duplicates findings gs).1 gs).1
        = (merge_duplicates findings gs).1 ∧
    ∀ g ∈ gs, (group_ids (merge_duplicates findings gs).1 g).length < 2 := by
  have hnd : ((merge_duplicates findings gs).1.map (fun f => f.id)).Nodup :=
    merge_out_ids_nodup findings gs
  have hkeys2 : by_id_keys (merge_duplicates findings gs).1
      = (merge_duplicates findings gs).1.map (fun f => f.id) :=
    eraseDupsKeepFirst_eq_self_of_nodup hnd
  have hsmall : ∀ g ∈ gs, (group_ids (merge_duplicates findings gs).1 g).length < 2 := by
    intro g hg
    have hmemids : ∀ x ∈ g.filter
        (fun i => (by_id_keys (merge_duplicates findings gs).1).contains i),
        x ∈ group_ids findings g ∧ (merge_fold findings gs).2.contains x = false := by
      intro x hx
      obtain ⟨hxg, hxk⟩ := List.mem_filter.mp hx
      have hxout : x ∈ (merge_duplicates findings gs).1.map (fun f => f.id) := by
        rw [← hkeys2]
        exact contains_eq_true_iff.mp (by simpa using hxk)
      obtain ⟨hxk1, hxseen⟩ := merge_out_id_mem.mp hxout
      exact ⟨mem_eraseDupsKeepFirst.mpr
        (List.mem_filter.mpr ⟨hxg, by simpa using contains_eq_true_iff.mpr hxk1⟩), hxseen⟩
    rw [group_ids]
    by_cases h2 : (group_ids findings g).length < 2
    · have hall : ∀ x ∈ g.filter
          (fun i => (by_id_keys (merge_duplicates findings gs).1).contains i),
          x = (group_ids findings g).headD "" := fun x hx =>
        eq_headD_of_length_le_one (Nat.lt_succ_iff.mp h2) x (hmemids x hx).1
      calc (eraseDupsKeepFirst (g.filter
            (fun i => (by_id_keys (merge_duplicates findings gs).1).contains i))).length
          ≤ 1 := length_eraseDupsKeepFirst_le_one_of_all_eq hall
        _ < 2 := by omega
    · have hall : ∀ x ∈ g.filter
          (fun i => (by_id_keys (merge_duplicates findings gs).1).contains i),
          x = group_canonical findings g := by
        intro x hx
        obtain ⟨hxids, hxseen⟩ := hmemids x hx
        by_contra hxc
        have hxmerged : x ∈ group_merged findings g :=
          List.mem_filter.mpr ⟨hxids, by simpa using hxc⟩
        have : x ∈ (merge_fold findings gs).2 :=
          group_merged_sub_fold_seen ([], []) hg h2 x hxmerged
        rw [contains_eq_true_iff.mpr this] at hxseen
        exact Bool.noConfusion hxseen
      calc (eraseDupsKeepFirst (g.filter
            (fun i => (by_id_keys (merge_duplicates findings gs).1).contains i))).length
          ≤ 1 := length_eraseDupsKeepFirst_le_one_of_all_eq hall
        _ < 2 := by omega
  refine ⟨?_, hsmall⟩
  have hfold2 : merge_fold (merge_duplicates findings gs).1 gs = ([], []) :=
    merge_fold_eq_nil hsmall
  conv_lhs => rw [merge_duplicates]
  rw [hfold2]
  have hemit2 : ∀ x ∈ by_id_keys (merge_duplicates findings gs).1,
      merge_emit (merge_duplicates findings gs).1 ([], []) x
        = last_lookup (merge_duplicates findings gs).1 x := by
    intro x _
    rw [merge_emit]
    simp only [List.contains, List.elem_nil, Bool.false_eq_true, if_false]
    cases hll : last_lookup (merge_duplicates findings gs).1 x with
    | none => rfl
    | some f =>
      exact congrArg some (apply_note_of_none f (by rw [assocGetList]; rfl))
  rw [List.filterMap_congr hemit2, hkeys2, filterMap_last_lookup_self hnd]
  exact List.mergeSort_of_sorted (merge_out_sorted findings gs)

/-- Witness for claim C10: with two input findings sharing id `A` (P1 first,
P2 last) and no duplicate groups, the merge output carries the last
occurrence. -/
theorem claim_C10_witness :
    exFinding "A" "P2" ∈ (merge_duplicates [exFinding "A" "P1", exFinding "A" "P2"] []).1 :=
  ((claim_C10_merge_by_id_index [exFinding "A" "P1", exFinding "A" "P2"] []).2.2
    "A" (exFinding "A" "P2") (by decide)
    (fun g hg => absurd hg (List.not_mem_nil g))).1

/-! ## Claim C1: decision-log filtering -/

theorem filter_chain_bool (a b c d : Bool) :
    (!(if (if a then a else b) then (if a then a else b) else (c && !d)))
      = !(a || b || (c && !d)) := by
  cases a <;> cases b <;> cases c <;> cases d <;> rfl

/-- Claim C1: decision-log filtering excludes exactly the findings whose id is
a fixed id or an escalation successor of a fixed id, and the findings whose id
is a rejected id without being an escalation successor of some rejected id
(escalation retention winning even when the finding's id is itself rejected);
every other finding is retained.  Finding ids are assumed already stripped and
non-blank, as the parser guarantees. -/
theorem claim_C1_decision_filter (findings : List Finding)
    (prior_decisions : List (List (String × String)))
    (escalation_groups : List (List String))
    (h : ∀ f ∈ findings, pyStrip f.id = f.id ∧ f.id ≠ "") :
    filter_by_decision_log findings prior_decisions escalation_groups
      = findings.filter (fun f => spec_retain
          (decision_ids_with_status prior_decisions "fixed")
          (decision_ids_with_status prior_decisions "rejected")
          escalation_groups f.id) := by
  rw [filter_by_decision_log]
  split
  · rename_i hemp
    rw [List.isEmpty_iff] at hemp
    subst hemp
    exact (List.filter_eq_self.mpr
      (fun f _ => by simp [spec_retain, decision_ids_with_status])).symm
  · apply List.filter_congr
    intro f hf
    obtain ⟨hstrip, hne⟩ := h f hf
    simp only [hstrip]
    rw [if_neg hne, spec_retain]
    exact filter_chain_bool _ _ _ _

/-- Witness for claim C1: the spec's scenario — prior decisions fix `SEC-010`
and reject `STY-020`, escalation group `[STY-020, LOG-030]`, findings
`SEC-010 (P1)`, `STY-020 (P3)`, `LOG-030 (P1)`, `NEW-100 (P2)` — filters to
exactly `LOG-030` and `NEW-100`. -/
theorem claim_C1_witness :
    filter_by_decision_log
      [exFinding "SEC-010" "P1", exFinding "STY-020" "P3",
       exFinding "LOG-030" "P1", exFinding "NEW-100" "P2"]
      [[("id", "SEC-010"), ("status", "fixed")],
       [("id", "STY-020"), ("status", "rejected")]]
      [["STY-020", "LOG-030"]]
      = [exFinding "LOG-030" "P1", exFinding "NEW-100" "P2"] := by
  rw [claim_C1_decision_filter _ _ _ (by decide)]
  decide

/-! ## Claims C3 and C4: tiering, stop decision, severity counts -/

/-- Counterexample for claim C3: on a single P2 finding the P0/P1 tier is
empty, so the claim's "stop iff the mandatory (rank ≤ 1) tier is empty"
demands `stop = true`; the `@opencode` variant's `main` (which the claim also
cites) computes `must_fix` with rank ≤ 2 and emits `stop = false`. -/
theorem claim_C3_counterexample :
    must_fix_codex [exFinding "N-1" "P2"] = [] ∧
    stop_opencode [exFinding "N-1" "P2"] = false := by decide

/-- Claim C3 as amended: in the codex variant the mandatory tier is exactly
the findings of rank ≤ 1, the optional tier exactly those of rank ≥ 2, and
stop holds iff no finding has rank ≤ 1; in the `@opencode` variant `must_fix`
is exactly the findings of rank ≤ 2 (there is no optional tier) and stop
holds iff no finding has rank ≤ 2. -/
theorem claim_C3_amended_tiers (fs : List Finding) :
    (∀ f, f ∈ must_fix_codex fs ↔ f ∈ fs ∧ priority_rank f.priority ≤ 1) ∧
    (∀ f, f ∈ optional_codex fs ↔ f ∈ fs ∧ 2 ≤ priority_rank f.priority) ∧
    (stop_codex fs = true ↔ ∀ f ∈ fs, 2 ≤ priority_rank f.priority) ∧
    (∀ f, f ∈ must_fix_opencode fs ↔ f ∈ fs ∧ priority_rank f.priority ≤ 2) ∧
    (stop_opencode fs = true ↔ ∀ f ∈ fs, 3 ≤ priority_rank f.priority) := by
  refine ⟨?_, ?_, ?_, ?_, ?_⟩
  · intro f
    simp [must_fix_codex, List.mem_filter]
  · intro f
    simp [optional_codex, List.mem_filter]
  · simp only [stop_codex, must_fix_codex, decide_eq_true_eq, List.length_eq_zero,
      List.filter_eq_nil_iff]
    refine forall_congr' (fun f => forall_congr' (fun hf => ?_))
    omega
  · intro f
    simp [must_fix_opencode, List.mem_filter]
  · simp only [stop_opencode, must_fix_opencode, decide_eq_true_eq, List.length_eq_zero,
      List.filter_eq_nil_iff]
    refine forall_congr' (fun f => forall_congr' (fun hf => ?_))
    omega

/-- Witness for claim C3 (amended): on a single P3 finding the codex variant
stops. -/
theorem claim_C3_witness :
    stop_codex [exFinding "N-2" "P3"] = true :=
  (claim_C3_amended_tiers [exFinding "N-2" "P3"]).2.2.1.mpr (by decide)

/-- Counterexample for claim C4: a finding with unrecognized priority `HIGH`
is tallied into no bucket, so the four counts sum to 0 while the findings list
has length 1 — the claimed "sum of the four counts equals the length" fails. -/
theorem claim_C4_counterexample :
    (counts [exFinding "X-1" "HIGH"]).total = 0 ∧
    ([exFinding "X-1" "HIGH"] : List Finding).length = 1 := by decide

theorem counts_step_total (c : Counts) (f : Finding) :
    (counts_step c f).total
      = c.total + (if priority_rank f.priority ≤ 3 then 1 else 0) := by
  by_cases h0 : pyUpper (pyStrip f.priority) = "P0"
  · simp [counts_step, priority_rank, h0, Counts.total]
    omega
  · by_cases h1 : pyUpper (pyStrip f.priority) = "P1"
    · simp [counts_step, priority_rank, h0, h1, Counts.total]
      omega
    · by_cases h2 : pyUpper (pyStrip f.priority) = "P2"
      · simp [counts_step, priority_rank, h0, h1, h2, Counts.total]
        omega
      · by_cases h3 : pyUpper (pyStrip f.priority) = "P3"
        · simp [counts_step, priority_rank, h0, h1, h2, h3, Counts.total]
          omega
        · simp [counts_step, priority_rank, h0, h1, h2, h3, Counts.total]

theorem foldl_counts_total : ∀ (l : List Finding) (c : Counts),
    (l.foldl counts_step c).total
      = c.total + (l.filter (fun f => priority_rank f.priority ≤ 3)).length := by
  intro l
  induction l with
  | nil => intro c; simp
  | cons f t ih =>
    intro c
    rw [List.foldl_cons, ih, counts_step_total, List.filter_cons]
    by_cases hr : priority_rank f.priority ≤ 3
    · simp [hr]
      omega
    · simp [hr]

/-- Claim C4 as amended: every finding with a recognized priority (rank ≤ 3
after strip/upper, i.e. P0–P3) is tallied into exactly one bucket, and the sum
of the four counts equals the number of such findings; findings with
unrecognized priorities are not counted at all, so the sum can fall short of
the list length. -/
theorem claim_C4_amended_counts (findings : List Finding) :
    (counts findings).total
      = (findings.filter (fun f => priority_rank f.priority ≤ 3)).length := by
  rw [counts, foldl_counts_total]
  simp [Counts.total]

/-! ## Claim C5: the idempotency check -/

/-- The exact section header for a comment kind and round, as built in
`_check_existing_comment`. -/
def section_header (comment_type : String) (round_num : Nat) : String :=
  if comment_type = "review-summary" then
    "## Review Summary (Round " ++ toString round_num ++ ")"
  else if comment_type = "fix-report" then
    "## Fix Report (Round " ++ toString round_num ++ ")"
  else "## Final Report"

/-- Claim C5: for a recognized comment kind, the idempotency check succeeds on
a successful listing iff some single comment body contains all three of the
marker, the exact section header for the kind and round, and the exact
`RunId:` line; a failed listing (non-zero exit, malformed JSON, or an
exception, modelled as `none`) always yields false. -/
theorem claim_C5_check_existing (bodies : List String) (run_id : String)
    (round_num : Nat) (comment_type : String)
    (hk : comment_type = "review-summary" ∨ comment_type = "fix-report" ∨
      comment_type = "final-report") :
    (check_existing_comment (some bodies) run_id round_num comment_type = true ↔
      ∃ body ∈ bodies, strHasSub body MARKER = true ∧
        strHasSub body (section_header comment_type round_num) = true ∧
        strHasSub body ("RunId: " ++ run_id) = true) ∧
    check_existing_comment none run_id round_num comment_type = false := by
  constructor
  · rcases hk with rfl | rfl | rfl <;>
      simp [check_existing_comment, section_header, List.any_eq_true,
        Bool.and_eq_true, and_assoc]
  · rfl

/-- Witness for claim C5: a listed comment carrying the marker, the round-2
review-summary header, and the run's `RunId:` line is detected as a
duplicate. -/
theorem claim_C5_witness :
    check_existing_comment
      (some ["<!-- pr-review-loop-marker -->\n## Review Summary (Round 2)\n- RunId: r9"])
      "r9" 2 "review-summary" = true := by
  refine ((claim_C5_check_existing
    ["<!-- pr-review-loop-marker -->\n## Review Summary (Round 2)\n- RunId: r9"]
    "r9" 2 "review-summary" (Or.inl rfl)).1).mpr ?_
  refine ⟨"<!-- pr-review-loop-marker -->\n## Review Summary (Round 2)\n- RunId: r9",
    by simp, by decide, by decide, by decide⟩

/-! ## Claim C6: the group resolvers degrade to the empty list -/

/-- Claim C6: the group resolvers never raise (they are total functions) and
every decode or parse failure yields the empty list: a `json.loads` failure
(malformed JSON, including empty input), a parsed top-level value that is
neither the named wrapping object nor a bare array, and a base64 decode
failure (invalid or non-ASCII input) all produce `[]`, for both the duplicate
and the escalation variants. -/
theorem claim_C6_resolver_failures :
    (∀ key, parse_groups_data key none = []) ∧
    (∀ key data, bad_top_shape key data → parse_groups_data key (some data) = []) ∧
    parse_duplicate_groups_b64 none = [] ∧
    parse_escalation_groups_b64 none = [] ∧
    parse_duplicate_groups_json none = [] ∧
    parse_escalation_groups_json none = [] := by
  refine ⟨fun key => rfl, ?_, rfl, rfl, rfl, rfl⟩
  intro key data hbad
  cases data with
  | null => rfl
  | bool b => rfl
  | num n => rfl
  | str s => rfl
  | arr items => exact absurd rfl (hbad.1 items)
  | obj fields =>
    cases hget : jsonObjGet fields key with
    | none => simp [parse_groups_data, hget]
    | some v =>
      cases v with
      | null => simp [parse_groups_data, hget]
      | bool b => simp [parse_groups_data, hget]
      | num n => simp [parse_groups_data, hget]
      | str s => simp [parse_groups_data, hget]
      | arr gs => exact absurd hget (hbad.2 fields rfl gs)
      | obj kvs => simp [parse_groups_data, hget]

/-- Witness for claim C6: a top-level JSON string is the wrong shape, so the
escalation resolver returns the empty list. -/
theorem claim_C6_witness :
    parse_groups_data "escalationGroups" (some (JVal.str "oops")) = [] :=
  claim_C6_resolver_failures.2.1 "escalationGroups" (JVal.str "oops")
    (And.intro (fun _ h => nomatch h) (fun _ h => nomatch h))

/-! ## Claim C8: decision-log parsing without a status section -/

theorem decision_log_fold_inert {lines : List String}
    (h : ∀ line ∈ lines, pyLower (pyStrip line) ≠ "### fixed" ∧
      pyLower (pyStrip line) ≠ "### rejected") :
    ∀ acc : List (List (String × String)),
      lines.foldl decision_log_step ⟨none, none, acc⟩ = ⟨none, none, acc⟩ := by
  induction lines with
  | nil => intro acc; rfl
  | cons line rest ih =>
    intro acc
    obtain ⟨h1, h2⟩ := h line (List.mem_cons_self _ _)
    have hstep : decision_log_step ⟨none, none, acc⟩ line = ⟨none, none, acc⟩ := by
      rw [decision_log_step, if_neg h1, if_neg h2]
      split
      · simp [DLState.flush]
      · split
        · rename_i hcond
          simp at hcond
        · rfl
    rw [List.foldl_cons, hstep,
      ih (fun l hl => h l (List.mem_cons_of_mem _ hl)) acc]

/-- Claim C8: a `- id:` line is recognized only while a status section is
active — on any text none of whose lines is a `### Fixed` or `### Rejected`
header (case-insensitively, after trimming), including the empty text, the
decision-log parser returns the empty list (and, being a total function,
never raises), regardless of `- id:` lines, `## Round` headers, or indented
field lines. -/
theorem claim_C8_no_section_no_records (md_text : String)
    (h : ∀ line ∈ pySplitlines md_text,
      pyLower (pyStrip line) ≠ "### fixed" ∧
      pyLower (pyStrip line) ≠ "### rejected") :
    parse_decision_log md_text = [] := by
  rw [parse_decision_log]
  split
  · rfl
  · rw [decision_log_fold_inert h []]
    rfl

/-- Witness for claim C8: a text with a `- id:` line, a round header, and an
indented field line but no status header parses to no records. -/
theorem claim_C8_witness :
    parse_decision_log "- id: X\n## Round 1\n  key: v\n" = [] :=
  claim_C8_no_section_no_records "- id: X\n## Round 1\n  key: v\n" (by decide)

/-! ## Claim C9: the comment sanitizer can recreate a scrubbed prefix -/

/-- Claim C9 (code-bug demonstration): with repository root `/r` (cache
`/r/.cache`), sanitizing the text `//r/r/` removes the occurrence of `/r/`
found by the scan, but the removal juxtaposes the remaining characters into a
fresh `/r/` — the sanitized output still contains the repository-root prefix,
contradicting the claimed guarantee that no absolute-path prefix survives. -/
theorem claim_C9_sanitizer_leak :
    sanitize_for_comment "/r/.cache" "/r" "//r/r/" = "/r/" ∧
    strHasSub (sanitize_for_comment "/r/.cache" "/r" "//r/r/") ("/r" ++ "/") = true := by
  decide
